import Mathlib

/-
Verification of the tlox expression interpreter (src/tlox/src/index.ts).

The source is a TypeScript program executed under JavaScript semantics.  The
embedding below models:
  * JavaScript numbers as extended rationals (finite rational, +Infinity,
    -Infinity, NaN).  Rounding of IEEE-754 doubles and the negative zero are
    not modelled; no property checked here depends on them.
  * runtime values as the tagged union actually flowing through the
    interpreter: number, string, boolean, null, undefined (undefined arises
    from the unhandled fall-through branches of the visitor methods).
  * JavaScript operator semantics (ToNumber, ToString, abstract relational
    comparison, strict equality) restricted to this value domain.
  * general recursion (the evaluator's self-recursive visitGroupingExpr, the
    scanner's loops, the recursive-descent parser) by an explicit fuel
    parameter, so every definition is executable and reduces by `rfl`.
-/

namespace Tlox

/-- JavaScript number: finite rational, the two infinities, or NaN.
(IEEE-754 rounding and -0 are not modelled.) -/
inductive JNum where
  | fin (q : ℚ)
  | inf
  | ninf
  | nan
deriving DecidableEq

/-- Runtime value domain of the interpreter: the values that can be produced
by `evaluate` (literals plus results of the JS operators, including
`undefined` from the unreachable-comment fall-throughs). -/
inductive Value where
  | num (n : JNum)
  | str (s : String)
  | bool (b : Bool)
  | nil
  | undefined
deriving DecidableEq

/-- The tag (JS `typeof`-like discriminator) of a runtime value. -/
inductive VTag where
  | numT | strT | boolT | nilT | undefT
deriving DecidableEq

def Value.tag : Value → VTag
  | .num _ => .numT
  | .str _ => .strT
  | .bool _ => .boolT
  | .nil => .nilT
  | .undefined => .undefT

/-- JS unary numeric negation. -/
def jneg : JNum → JNum
  | .fin q => .fin (-q)
  | .inf => .ninf
  | .ninf => .inf
  | .nan => .nan

/-- JS numeric addition on the extended number domain. -/
def jnumAdd : JNum → JNum → JNum
  | .nan, _ => .nan
  | _, .nan => .nan
  | .inf, .ninf => .nan
  | .ninf, .inf => .nan
  | .inf, _ => .inf
  | _, .inf => .inf
  | .ninf, _ => .ninf
  | _, .ninf => .ninf
  | .fin a, .fin b => .fin (a + b)

/-- JS numeric subtraction (`a - b = a + (-b)` on this domain). -/
def jnumSub (a b : JNum) : JNum := jnumAdd a (jneg b)

/-- JS numeric division (sign of zero not modelled: division of a nonzero
finite number by zero yields the infinity matching the dividend's sign). -/
def jnumDiv : JNum → JNum → JNum
  | .nan, _ => .nan
  | _, .nan => .nan
  | .inf, .inf => .nan
  | .inf, .ninf => .nan
  | .ninf, .inf => .nan
  | .ninf, .ninf => .nan
  | .inf, .fin b => if b < 0 then .ninf else .inf
  | .ninf, .fin b => if b < 0 then .inf else .ninf
  | .fin _, .inf => .fin 0
  | .fin _, .ninf => .fin 0
  | .fin a, .fin b =>
    if b = 0 then (if a = 0 then .nan else if a < 0 then .ninf else .inf)
    else .fin (a / b)

/-- JS numeric `<` as a three-valued comparison: `none` is the ECMAScript
"undefined" outcome produced when an operand is NaN. -/
def jnumLtOpt : JNum → JNum → Option Bool
  | .nan, _ => none
  | _, .nan => none
  | .inf, _ => some false
  | .ninf, .ninf => some false
  | .ninf, _ => some true
  | .fin _, .inf => some true
  | .fin _, .ninf => some false
  | .fin a, .fin b => some (decide (a < b))

/-- JS strict equality on numbers (NaN is not equal to itself). -/
def jnumEq : JNum → JNum → Bool
  | .fin a, .fin b => decide (a = b)
  | .inf, .inf => true
  | .ninf, .ninf => true
  | _, _ => false

/-- ECMAScript whitespace characters recognised by the modelled
StringToNumber. -/
def isWsChar (c : Char) : Bool :=
  decide (c = ' ') || decide (c = '\t') || decide (c = '\n') || decide (c = '\r')

/-- Scanner.isDigit: `c >= '0' && c <= '9'`. -/
def isDigit (c : Char) : Bool := decide ('0' ≤ c) && decide (c ≤ '9')

/-- Value of a digit string read left to right. -/
def digitsVal (l : List Char) : ℚ :=
  l.foldl (fun acc c => acc * 10 + ((c.toNat - '0'.toNat : ℕ) : ℚ)) 0

/-- Value of a fraction-part digit string. -/
def fracVal (l : List Char) : ℚ := digitsVal l / (10 ^ l.length)

/-- Decimal literal body: `digits`, `digits.digits`, `digits.`, or `.digits`. -/
def parseDecimal (l : List Char) : Option ℚ :=
  if l ≠ [] && l.all isDigit then some (digitsVal l)
  else if (l.filter (fun c => decide (c = '.'))).length = 1 then
    let a := l.takeWhile (fun c => decide (c ≠ '.'))
    let b := l.drop (a.length + 1)
    if a.all isDigit && b.all isDigit && !(a.isEmpty && b.isEmpty) then
      some (digitsVal a + fracVal b)
    else none
  else none

/-- JS StringToNumber, modelled for the decimal subset (optional surrounding
whitespace, optional sign, decimal digits with optional fraction; the empty
string is 0; anything else — including the hex / exponent / "Infinity" forms
never produced or consumed by this program — is NaN). -/
def strToNumber (s : String) : JNum :=
  let l := ((s.data.dropWhile isWsChar).reverse.dropWhile isWsChar).reverse
  if l.isEmpty then .fin 0
  else
    match l with
    | '-' :: rest =>
      match parseDecimal rest with
      | some q => .fin (-q)
      | none => .nan
    | '+' :: rest =>
      match parseDecimal rest with
      | some q => .fin q
      | none => .nan
    | rest =>
      match parseDecimal rest with
      | some q => .fin q
      | none => .nan

/-- JS ToString on numbers.  Integral values are rendered exactly as JS does;
for non-integral values JS prints the shortest round-tripping decimal, which
is not modelled (no checked property evaluates it) — a `num/den` fallback
marks that case. -/
def numToString : JNum → String
  | .nan => "NaN"
  | .inf => "Infinity"
  | .ninf => "-Infinity"
  | .fin q =>
    if q.den = 1 then
      (if q.num < 0 then "-" ++ Nat.repr q.num.natAbs else Nat.repr q.num.natAbs)
    else
      (if q.num < 0 then "-" ++ Nat.repr q.num.natAbs else Nat.repr q.num.natAbs)
        ++ "/" ++ Nat.repr q.den

/-- JS ToNumber on the runtime value domain. -/
def toNumber : Value → JNum
  | .num n => n
  | .str s => strToNumber s
  | .bool true => .fin 1
  | .bool false => .fin 0
  | .nil => .fin 0
  | .undefined => .nan

/-- JS ToString on the runtime value domain. -/
def jsToString : Value → String
  | .num n => numToString n
  | .str s => s
  | .bool true => "true"
  | .bool false => "false"
  | .nil => "null"
  | .undefined => "undefined"

/-- The JS `+` operator on the value domain: if either operand is a string the
result is the concatenation of the ToString images, otherwise numeric
addition of the ToNumber images. -/
def jsAdd (l r : Value) : Value :=
  match l, r with
  | .str s, _ => .str (s ++ jsToString r)
  | _, .str s => .str (jsToString l ++ s)
  | _, _ => .num (jnumAdd (toNumber l) (toNumber r))

/-- JS string `<`, by code points (identical to UTF-16 order on the
basic-multilingual-plane strings this program manipulates). -/
def strLt (s t : String) : Bool := decide (s < t)

/-- ECMAScript Abstract Relational Comparison on the value domain:
`none` is the "undefined" outcome (a NaN operand). -/
def arcLt (a b : Value) : Option Bool :=
  match a, b with
  | .str s, .str t => some (strLt s t)
  | _, _ => jnumLtOpt (toNumber a) (toNumber b)

/-- JS `<` : undefined outcome becomes false. -/
def jsLtV (a b : Value) : Bool := (arcLt a b).getD false

/-- JS `>` : `b < a` with undefined becoming false. -/
def jsGtV (a b : Value) : Bool := (arcLt b a).getD false

/-- JS `<=` : true unless `b < a` is true or undefined. -/
def jsLeV (a b : Value) : Bool :=
  match arcLt b a with
  | none => false
  | some r => !r

/-- JS `>=` : true unless `a < b` is true or undefined. -/
def jsGeV (a b : Value) : Bool :=
  match arcLt a b with
  | none => false
  | some r => !r

/-- JS strict equality (`===`) on the value domain. -/
def jsStrictEq : Value → Value → Bool
  | .num a, .num b => jnumEq a b
  | .str s, .str t => decide (s = t)
  | .bool a, .bool b => decide (a = b)
  | .nil, .nil => true
  | .undefined, .undefined => true
  | _, _ => false

/-- The TokenType enumeration of the source (39 members). -/
inductive TokenType where
  | LEFT_PAREN | RIGHT_PAREN | LEFT_BRACE | RIGHT_BRACE
  | COMMA | DOT | MINUS | PLUS | SEMICOLON | SLASH | STAR
  | BANG | BANG_EQUAL | EQUAL | EQUAL_EQUAL
  | GREATER | GREATER_EQUAL | LESS | LESS_EQUAL
  | IDENTIFIER | STRING | NUMBER
  | AND | CLASS | ELSE | FALSE | FUN | FOR | IF | NIL | OR
  | PRINT | RETURN | SUPER | THIS | TRUE | VAR | WHILE
  | EOF
deriving DecidableEq

/-- The dynamic type of a Token's `type` field.  The field is declared
`TokenType` but JavaScript's property lookup on the keyword table can also
yield a member inherited from `Object.prototype` (a truthy function or
object); `protoObj name` records which inherited member was stored. -/
inductive TKind where
  | tt (t : TokenType)
  | protoObj (name : String)
deriving DecidableEq

/-- Token record: type, lexeme, literal (null when absent), line. -/
structure Token where
  type : TKind
  lexeme : String
  literal : Value
  line : Nat
deriving DecidableEq

/-- The Expr AST: Literal / Grouping / Unary / Binary. -/
inductive Expr where
  | literal (value : Value)
  | grouping (expr : Expr)
  | unary (operator : Token) (right : Expr)
  | binary (left : Expr) (operator : Token) (right : Expr)
deriving DecidableEq

/-- Interpreter.isTruthy: `object == null` (loose equality, true for both
null and undefined) is falsy, a boolean is itself, everything else truthy. -/
def isTruthy : Value → Bool
  | .nil => false
  | .undefined => false
  | .bool b => b
  | _ => true

/-- The switch of Interpreter.visitBinaryExpr, applied to the two already
evaluated operand values.  Note the source's STAR case computes `left +
right` — the same JS `+` as the PLUS case — and the switch has no default,
so an unhandled operator token yields `undefined`. -/
def binaryDispatch (t : TKind) (lv rv : Value) : Value :=
  if t = .tt .GREATER then .bool (jsGtV lv rv)
  else if t = .tt .GREATER_EQUAL then .bool (jsGeV lv rv)
  else if t = .tt .LESS then .bool (jsLtV lv rv)
  else if t = .tt .LESS_EQUAL then .bool (jsLeV lv rv)
  else if t = .tt .BANG_EQUAL then .bool (!jsStrictEq lv rv)
  else if t = .tt .EQUAL_EQUAL then .bool (jsStrictEq lv rv)
  else if t = .tt .MINUS then .num (jnumSub (toNumber lv) (toNumber rv))
  else if t = .tt .SLASH then .num (jnumDiv (toNumber lv) (toNumber rv))
  else if t = .tt .STAR then jsAdd lv rv
  else if t = .tt .PLUS then jsAdd lv rv
  else .undefined

/-- Interpreter.evaluate / the visit methods, with an explicit fuel
parameter (one unit per `evaluate` call) because the source's
visitGroupingExpr re-evaluates the Grouping node itself
(`return this.evaluate(expr)` where `expr` is the Grouping, not its inner
expression) and therefore never terminates on a Grouping node.
`none` means the call did not complete within the given fuel. -/
def evalFuel : Nat → Expr → Option Value
  | 0, _ => none
  | _ + 1, .literal v => some v
  | n + 1, .grouping e => evalFuel n (.grouping e)
  | n + 1, .unary op r =>
    match evalFuel n r with
    | none => none
    | some right =>
      if op.type = .tt .MINUS then some (.num (jneg (toNumber right)))
      else if op.type = .tt .BANG then some (.bool (!isTruthy right))
      else some .undefined
  | n + 1, .binary l op r =>
    match evalFuel n l with
    | none => none
    | some lv =>
      match evalFuel n r with
      | none => none
      | some rv => some (binaryDispatch op.type lv rv)

/-! ### Scanner -/

/-- `source[i]`, with the source's peek convention: any out-of-range read
yields the sentinel NUL character (Scanner.peek / peekNext return a NUL at
end of input, and every in-range read site is guarded). -/
def charAt (src : List Char) (i : Nat) : Char := (src.get? i).getD '\x00'

/-- `source.substring(a, b)`. -/
def substr (src : List Char) (a b : Nat) : String :=
  String.mk ((src.drop a).take (b - a))

/-- Scanner.isAlpha: lowercase or uppercase letter or underscore. -/
def isAlpha (c : Char) : Bool :=
  (decide ('a' ≤ c) && decide (c ≤ 'z')) ||
  (decide ('A' ≤ c) && decide (c ≤ 'Z')) || decide (c = '_')

/-- Scanner.isAlphaNumeric. -/
def isAlphaNumeric (c : Char) : Bool := isAlpha c || isDigit c

/-- Scanner.KEYWORDS together with the JavaScript property-lookup semantics
of indexing a plain object literal: the sixteen own entries map to their
keyword TokenTypes, but a lookup can also reach the own properties of
`Object.prototype`, which the object literal inherits; those yield a truthy
function or object, recorded as `TKind.protoObj`.  A lookup of any other
name yields `undefined`, i.e. `none`. -/
def objectProtoMembers : List String :=
  ["constructor", "hasOwnProperty", "isPrototypeOf", "propertyIsEnumerable",
   "toLocaleString", "toString", "valueOf", "__defineGetter__",
   "__defineSetter__", "__lookupGetter__", "__lookupSetter__", "__proto__"]

/-- The sixteen own entries of Scanner.KEYWORDS. -/
def KEYWORDS : List (String × TokenType) :=
  [("and", .AND), ("class", .CLASS), ("else", .ELSE), ("false", .FALSE),
   ("for", .FOR), ("fun", .FUN), ("if", .IF), ("nil", .NIL), ("or", .OR),
   ("print", .PRINT), ("return", .RETURN), ("super", .SUPER),
   ("this", .THIS), ("true", .TRUE), ("var", .VAR), ("while", .WHILE)]

def keywordsGet (text : String) : Option TKind :=
  match KEYWORDS.find? (fun p => p.1 == text) with
  | some p => some (.tt p.2)
  | none =>
    if objectProtoMembers.contains text then some (.protoObj text) else none

/-- Scanner state: the mutable fields of the Scanner class (the source text
is passed separately).  `errors` models the calls to the module-level
`error(line, message)` sink, which also set `hadError`. -/
structure ScanSt where
  start : Nat
  current : Nat
  line : Nat
  tokens : List Token
  errors : List (Nat × String)
deriving DecidableEq

/-- Scanner.addToken: push a token whose lexeme is the source slice from
`start` to `current`, at the current line. -/
def addToken (src : List Char) (st : ScanSt) (type : TKind)
    (literal : Value) : ScanSt :=
  { st with tokens :=
      st.tokens ++ [⟨type, substr src st.start st.current, literal, st.line⟩] }

/-- The comment-skipping loop: `while (peek() !== '\n' && !isAtEnd())
advance()`.  Fuel-indexed; `src.length + 1` fuel always suffices since each
step advances the cursor. -/
def commentLoop (src : List Char) : Nat → Nat → Nat
  | 0, current => current
  | fuel + 1, current =>
    if charAt src current ≠ '\n' ∧ current < src.length then
      commentLoop src fuel (current + 1)
    else current

/-- The body loop of Scanner.string: advance to the closing quote, counting
newlines.  Returns the updated (current, line). -/
def stringLoop (src : List Char) : Nat → Nat → Nat → Nat × Nat
  | 0, current, line => (current, line)
  | fuel + 1, current, line =>
    if charAt src current ≠ '"' ∧ current < src.length then
      stringLoop src fuel (current + 1)
        (if charAt src current = '\n' then line + 1 else line)
    else (current, line)

/-- `while (isDigit(peek())) advance()`. -/
def digitsLoop (src : List Char) : Nat → Nat → Nat
  | 0, current => current
  | fuel + 1, current =>
    if isDigit (charAt src current) then digitsLoop src fuel (current + 1)
    else current

/-- `while (isAlphaNumeric(peek())) advance()`. -/
def alnumLoop (src : List Char) : Nat → Nat → Nat
  | 0, current => current
  | fuel + 1, current =>
    if isAlphaNumeric (charAt src current) then
      alnumLoop src fuel (current + 1)
    else current

/-- Scanner.string (entered after the opening quote was consumed). -/
def scanString (src : List Char) (st : ScanSt) : ScanSt :=
  let r := stringLoop src (src.length + 1) st.current st.line
  if r.1 ≥ src.length then
    { st with
      current := r.1
      line := r.2
      errors := st.errors ++ [(r.2, "Unterminated string.")] }
  else
    let c2 := r.1 + 1
    addToken src { st with current := c2, line := r.2 } (.tt .STRING)
      (.str (substr src (st.start + 1) (c2 - 1)))

/-- Scanner.number: integer digits, then an optional fraction when a `.` is
followed by a digit; the literal is decoded with JS `Number(...)` on the
matched slice. -/
def scanNumber (src : List Char) (st : ScanSt) : ScanSt :=
  let c1 := digitsLoop src (src.length + 1) st.current
  let c2 :=
    if charAt src c1 = '.' ∧ isDigit (charAt src (c1 + 1)) then
      digitsLoop src (src.length + 1) (c1 + 1)
    else c1
  addToken src { st with current := c2 } (.tt .NUMBER)
    (.num (strToNumber (substr src st.start c2)))

/-- Scanner.identifier: extend over alphanumerics, look the text up in the
keyword table (with JS property-lookup semantics), defaulting to IDENTIFIER
only when the lookup yields a falsy value (i.e. `undefined`; every value
actually found — keyword TokenType string or inherited prototype member —
is truthy). -/
def scanIdentifier (src : List Char) (st : ScanSt) : ScanSt :=
  let c := alnumLoop src (src.length + 1) st.current
  let type :=
    match keywordsGet (substr src st.start c) with
    | some k => k
    | none => TKind.tt .IDENTIFIER
  addToken src { st with current := c } type .nil

/-- Scanner.match(expected): conditional one-character advance. -/
def matchChar (src : List Char) (cur : Nat) (expected : Char) : Bool :=
  decide (cur < src.length) && decide (charAt src cur = expected)

/-- The last group of Scanner.scanToken's switch cases: whitespace, newline,
string literals, and the default (digit / alpha / unexpected-character)
branch. -/
def scanTokenRest (src : List Char) (c : Char) (st : ScanSt) : ScanSt :=
  if c = ' ' then st
  else if c = '\r' then st
  else if c = '\t' then st
  else if c = '\n' then { st with line := st.line + 1 }
  else if c = '"' then scanString src st
  else if isDigit c then scanNumber src st
  else if isAlpha c then scanIdentifier src st
  else { st with errors := st.errors ++ [(st.line, "Unexpected character.")] }

/-- The one-or-two-character operator cases of Scanner.scanToken's switch
(`!` `=` `<` `>` and `/` with its line-comment handling); later cases are
delegated to `scanTokenRest`. -/
def scanTokenOps (src : List Char) (c : Char) (st : ScanSt) : ScanSt :=
  if c = '!' then
    if matchChar src st.current '=' then
      addToken src { st with current := st.current + 1 } (.tt .BANG_EQUAL) .nil
    else addToken src st (.tt .BANG) .nil
  else if c = '=' then
    if matchChar src st.current '=' then
      addToken src { st with current := st.current + 1 }
        (.tt .EQUAL_EQUAL) .nil
    else addToken src st (.tt .EQUAL) .nil
  else if c = '<' then
    if matchChar src st.current '=' then
      addToken src { st with current := st.current + 1 } (.tt .LESS_EQUAL) .nil
    else addToken src st (.tt .LESS) .nil
  else if c = '>' then
    if matchChar src st.current '=' then
      addToken src { st with current := st.current + 1 }
        (.tt .GREATER_EQUAL) .nil
    else addToken src st (.tt .GREATER) .nil
  else if c = '/' then
    if matchChar src st.current '/' then
      { st with current := commentLoop src (src.length + 1) (st.current + 1) }
    else addToken src st (.tt .SLASH) .nil
  else scanTokenRest src c st

/-- The switch of Scanner.scanToken, applied to the already consumed
character `c` with the cursor already advanced past it: first the
single-character punctuation cases, then the operator and remaining cases. -/
def scanTokenDispatch (src : List Char) (c : Char) (st : ScanSt) : ScanSt :=
  if c = '(' then addToken src st (.tt .LEFT_PAREN) .nil
  else if c = ')' then addToken src st (.tt .RIGHT_PAREN) .nil
  else if c = '{' then addToken src st (.tt .LEFT_BRACE) .nil
  else if c = '}' then addToken src st (.tt .RIGHT_BRACE) .nil
  else if c = ',' then addToken src st (.tt .COMMA) .nil
  else if c = '.' then addToken src st (.tt .DOT) .nil
  else if c = '-' then addToken src st (.tt .MINUS) .nil
  else if c = '+' then addToken src st (.tt .PLUS) .nil
  else if c = ';' then addToken src st (.tt .SEMICOLON) .nil
  else if c = '*' then addToken src st (.tt .STAR) .nil
  else scanTokenOps src c st

/-- Scanner.scanToken: `const c = this.advance()` followed by the switch. -/
def scanToken (src : List Char) (st0 : ScanSt) : ScanSt :=
  scanTokenDispatch src (charAt src st0.current)
    { st0 with current := st0.current + 1 }

/-- The scanTokens while-loop.  Fuel-indexed; `src.length + 1` fuel always
suffices because every scanToken call advances the cursor by at least one
(see `scanLoop_reaches_end`). -/
def scanLoop (src : List Char) : Nat → ScanSt → ScanSt
  | 0, st => st
  | fuel + 1, st =>
    if st.current < src.length then
      scanLoop src fuel (scanToken src { st with start := st.current })
    else st

/-- Scanner state after the scan loop, for a given source string. -/
def scanAll (source : String) : ScanSt :=
  scanLoop source.data (source.data.length + 1) ⟨0, 0, 1, [], []⟩

/-- Scanner.scanTokens: run the loop and append the single EOF token. -/
def scanTokens (source : String) : List Token :=
  (scanAll source).tokens ++ [⟨.tt .EOF, "", .nil, (scanAll source).line⟩]

/-! ### Parser -/

/-- Parser failure: a thrown parse error (the source's `Parser.error` reports
a diagnostic and returns an Error that is thrown and caught by `parse`), or
fuel exhaustion (a model artifact: the source's recursion has no such
case). -/
inductive PErr where
  | noFuel
  | parseErr (tok : Token) (message : String)
deriving DecidableEq

instance {α β : Type} [DecidableEq α] [DecidableEq β] :
    DecidableEq (Except α β) := fun
  | .error a, .error b =>
    match decEq a b with
    | isTrue h => isTrue (by rw [h])
    | isFalse h => isFalse (by intro hc; injection hc; contradiction)
  | .error _, .ok _ => isFalse (fun hc => Except.noConfusion hc)
  | .ok _, .error _ => isFalse (fun hc => Except.noConfusion hc)
  | .ok a, .ok b =>
    match decEq a b with
    | isTrue h => isTrue (by rw [h])
    | isFalse h => isFalse (by intro hc; injection hc; contradiction)

/-- Result of a grammar-rule call: the parsed expression together with the
updated `current` index, or a failure. -/
abbrev PRes := Except PErr (Expr × Nat)

/-- Parser.peek: `tokens[current]`.  The default covers an out-of-range read
for totality; the program always parses EOF-terminated scanner output, where
`peek` stays in range. -/
def peekT (toks : List Token) (cur : Nat) : Token :=
  (toks.get? cur).getD ⟨.tt .EOF, "", .nil, 0⟩

/-- Parser.isAtEnd: `peek().type === EOF`. -/
def isAtEndT (toks : List Token) (cur : Nat) : Bool :=
  decide ((peekT toks cur).type = .tt .EOF)

/-- Parser.check. -/
def checkT (toks : List Token) (cur : Nat) (ty : TokenType) : Bool :=
  if isAtEndT toks cur then false
  else decide ((peekT toks cur).type = .tt ty)

/-- Parser.match over a list of candidate types: on success the consumed
token (= `previous()` after the advance) and the advanced index. -/
def matchT (toks : List Token) (cur : Nat) (tys : List TokenType) :
    Option (Token × Nat) :=
  if tys.any (fun ty => checkT toks cur ty) then some (peekT toks cur, cur + 1)
  else none

mutual

/-- Parser.expression. -/
def pExpression : Nat → List Token → Nat → PRes
  | 0, _, _ => .error .noFuel
  | n + 1, toks, cur => pEquality n toks cur
termination_by structural n _ _ => n

/-- Parser.equality: one comparison, then the fold loop. -/
def pEquality : Nat → List Token → Nat → PRes
  | 0, _, _ => .error .noFuel
  | n + 1, toks, cur =>
    match pComparison n toks cur with
    | .error e => .error e
    | .ok (e, c) => pEqualityLoop n toks e c
termination_by structural n _ _ => n

/-- The while loop of Parser.equality. -/
def pEqualityLoop : Nat → List Token → Expr → Nat → PRes
  | 0, _, _, _ => .error .noFuel
  | n + 1, toks, expr, cur =>
    match matchT toks cur [.BANG_EQUAL, .EQUAL_EQUAL] with
    | some (op, c) =>
      match pComparison n toks c with
      | .error e => .error e
      | .ok (r, c2) => pEqualityLoop n toks (.binary expr op r) c2
    | none => .ok (expr, cur)
termination_by structural n _ _ _ => n

/-- Parser.comparison. -/
def pComparison : Nat → List Token → Nat → PRes
  | 0, _, _ => .error .noFuel
  | n + 1, toks, cur =>
    match pTerm n toks cur with
    | .error e => .error e
    | .ok (e, c) => pComparisonLoop n toks e c
termination_by structural n _ _ => n

/-- The while loop of Parser.comparison. -/
def pComparisonLoop : Nat → List Token → Expr → Nat → PRes
  | 0, _, _, _ => .error .noFuel
  | n + 1, toks, expr, cur =>
    match matchT toks cur [.GREATER, .GREATER_EQUAL, .LESS, .LESS_EQUAL] with
    | some (op, c) =>
      match pTerm n toks c with
      | .error e => .error e
      | .ok (r, c2) => pComparisonLoop n toks (.binary expr op r) c2
    | none => .ok (expr, cur)
termination_by structural n _ _ _ => n

/-- Parser.term. -/
def pTerm : Nat → List Token → Nat → PRes
  | 0, _, _ => .error .noFuel
  | n + 1, toks, cur =>
    match pFactor n toks cur with
    | .error e => .error e
    | .ok (e, c) => pTermLoop n toks e c
termination_by structural n _ _ => n

/-- The while loop of Parser.term. -/
def pTermLoop : Nat → List Token → Expr → Nat → PRes
  | 0, _, _, _ => .error .noFuel
  | n + 1, toks, expr, cur =>
    match matchT toks cur [.MINUS, .PLUS] with
    | some (op, c) =>
      match pFactor n toks c with
      | .error e => .error e
      | .ok (r, c2) => pTermLoop n toks (.binary expr op r) c2
    | none => .ok (expr, cur)
termination_by structural n _ _ _ => n

/-- Parser.factor. -/
def pFactor : Nat → List Token → Nat → PRes
  | 0, _, _ => .error .noFuel
  | n + 1, toks, cur =>
    match pUnary n toks cur with
    | .error e => .error e
    | .ok (e, c) => pFactorLoop n toks e c
termination_by structural n _ _ => n

/-- The while loop of Parser.factor. -/
def pFactorLoop : Nat → List Token → Expr → Nat → PRes
  | 0, _, _, _ => .error .noFuel
  | n + 1, toks, expr, cur =>
    match matchT toks cur [.SLASH, .STAR] with
    | some (op, c) =>
      match pUnary n toks c with
      | .error e => .error e
      | .ok (r, c2) => pFactorLoop n toks (.binary expr op r) c2
    | none => .ok (expr, cur)
termination_by structural n _ _ _ => n

/-- Parser.unary. -/
def pUnary : Nat → List Token → Nat → PRes
  | 0, _, _ => .error .noFuel
  | n + 1, toks, cur =>
    match matchT toks cur [.BANG, .MINUS] with
    | some (op, c) =>
      match pUnary n toks c with
      | .error e => .error e
      | .ok (r, c2) => .ok (.unary op r, c2)
    | none => pPrimary n toks cur
termination_by structural n _ _ => n

/-- Parser.primary. -/
def pPrimary : Nat → List Token → Nat → PRes
  | 0, _, _ => .error .noFuel
  | n + 1, toks, cur =>
    match matchT toks cur [.FALSE] with
    | some (_, c) => .ok (.literal (.bool false), c)
    | none =>
      match matchT toks cur [.TRUE] with
      | some (_, c) => .ok (.literal (.bool true), c)
      | none =>
        match matchT toks cur [.NIL] with
        | some (_, c) => .ok (.literal .nil, c)
        | none =>
          match matchT toks cur [.NUMBER, .STRING] with
          | some (tok, c) => .ok (.literal tok.literal, c)
          | none =>
            match matchT toks cur [.LEFT_PAREN] with
            | some (_, c) =>
              match pExpression n toks c with
              | .error e => .error e
              | .ok (e, c2) =>
                if checkT toks c2 .RIGHT_PAREN then .ok (.grouping e, c2 + 1)
                else .error (.parseErr (peekT toks c2)
                  "Expect right paren after expression")
            | none => .error (.parseErr (peekT toks cur) "Expect expression")
termination_by structural n _ _ => n

end

/-- Parser.parse: the catch turns a thrown parse error into `null`; fuel
exhaustion is likewise mapped to `none` (the program's recursion always
terminates on EOF-terminated input given enough fuel). -/
def parse (fuel : Nat) (toks : List Token) : Option Expr :=
  match pExpression fuel toks 0 with
  | .ok (e, _) => some e
  | .error _ => none

/-! ### Driver (run / runFile) -/

/-- Outcome of one `run(source)` call.  `printed` carries the line written by
`interpret` (`console.log(JSON.stringify(value))`); `thrownTypeError` is the
uncaught TypeError raised by `interpret(null)` when the parser returned null
(`null.accept` dereferences null); `fuelOut` is a model artifact for
insufficient fuel. -/
inductive RunOut where
  | printed (out : String)
  | thrownTypeError
  | fuelOut
deriving DecidableEq

/-- JSON.stringify on the runtime value domain (string escaping is not
modelled; NaN and the infinities serialise as null; `undefined` is what
console.log prints for the non-string result of stringifying undefined). -/
def jsonStringify : Value → String
  | .num (.fin q) => numToString (.fin q)
  | .num _ => "null"
  | .str s => "\"" ++ s ++ "\""
  | .bool true => "true"
  | .bool false => "false"
  | .nil => "null"
  | .undefined => "undefined"

/-- `run(source)`: scan, parse, and unconditionally interpret the parse
result (the source checks `hadError` only after `interpret` has already
run).  Returns the outcome together with the final `hadError` flag. -/
def runModel (source : String) (parseFuel evalFuelAmt : Nat) :
    RunOut × Bool :=
  let sa := scanAll source
  let toks := sa.tokens ++ [⟨.tt .EOF, "", .nil, sa.line⟩]
  match pExpression parseFuel toks 0 with
  | .error .noFuel => (.fuelOut, !sa.errors.isEmpty)
  | .error (.parseErr _ _) => (.thrownTypeError, true)
  | .ok (e, _) =>
    match evalFuel evalFuelAmt e with
    | some v => (.printed (jsonStringify v), !sa.errors.isEmpty)
    | none => (.fuelOut, !sa.errors.isEmpty)

/-- `runFile`: run once, then `exit(65)` if `hadError`.  An exception thrown
out of `run` (the TypeError from interpreting a null parse result) escapes
`runFile`, rejects `main()`'s promise, and hits the `.catch` handler, which
calls `exit(-1)`; the process exit status is therefore 255.  Returns
`some (exit code, stdout lines)`, or `none` on fuel exhaustion. -/
def runFileModel (source : String) (parseFuel evalFuelAmt : Nat) :
    Option (Nat × List String) :=
  match runModel source parseFuel evalFuelAmt with
  | (.fuelOut, _) => none
  | (.thrownTypeError, _) => some (255, [])
  | (.printed out, hadErr) => some (if hadErr then 65 else 0, [out])

/-- The invariant maintained over the scanner state: no EOF token has been
emitted by the loop, emitted lines are non-decreasing, and no emitted line
exceeds the scanner's current line counter. -/
def TokensInv (st : ScanSt) : Prop :=
  (∀ t ∈ st.tokens, t.type ≠ .tt .EOF) ∧
    List.Chain' (fun a b => a.line ≤ b.line) st.tokens ∧
    ∀ t ∈ st.tokens, t.line ≤ st.line

/-- A `*` token as the scanner produces it. -/
def starTok : Token := ⟨.tt .STAR, "*", .nil, 1⟩

/-- A `+` token as the scanner produces it. -/
def plusTok : Token := ⟨.tt .PLUS, "+", .nil, 1⟩

/-- A unary `-` token as the scanner produces it. -/
def minusTok : Token := ⟨.tt .MINUS, "-", .nil, 1⟩

/-- A `!` token as the scanner produces it. -/
def bangTok : Token := ⟨.tt .BANG, "!", .nil, 1⟩

/-- A `==` token as the scanner produces it. -/
def eqeqTok : Token := ⟨.tt .EQUAL_EQUAL, "==", .nil, 1⟩

/-- The ten Binary operator kinds handled by visitBinaryExpr's switch. -/
def binOps : List TokenType :=
  [.BANG_EQUAL, .EQUAL_EQUAL, .GREATER, .GREATER_EQUAL, .LESS, .LESS_EQUAL,
   .MINUS, .PLUS, .SLASH, .STAR]

/-- Well-formedness of an Expr tree: every Unary operator is BANG or MINUS,
every Binary operator is one of the ten handled kinds, and no Literal holds
`undefined` (scanner-produced tokens never carry an undefined literal). -/
def wfExpr : Expr → Bool
  | .literal v => decide (v ≠ .undefined)
  | .grouping e => wfExpr e
  | .unary op r =>
    (decide (op.type = .tt .BANG) || decide (op.type = .tt .MINUS)) && wfExpr r
  | .binary l op r =>
    binOps.any (fun ty => decide (op.type = .tt ty)) && wfExpr l && wfExpr r

end Tlox

namespace Tlox

/-- C1.  The claim says a Binary `*` on two Numbers produces their product;
the source's STAR case computes `left + right`, so `2 * 3` evaluates to
Number 5 (the sum), not 6. -/
theorem c1_star_is_addition :
    evalFuel 2 (.binary (.literal (.num (.fin 2))) starTok
        (.literal (.num (.fin 3)))) = some (.num (.fin 5)) := by
  show some (Value.num (jnumAdd (JNum.fin 2) (JNum.fin 3))) = _
  simp [jnumAdd]
  norm_num

/-- C2.  The claim says evaluation terminates and a Grouping yields its inner
expression's value; the source's visitGroupingExpr re-evaluates the Grouping
node itself, so evaluating `Grouping(Literal 1)` never completes, for any
amount of fuel. -/
theorem c2_grouping_never_completes :
    ∀ n : Nat, evalFuel n (.grouping (.literal (.num (.fin 1)))) = none := by
  intro n
  induction n with
  | zero => rfl
  | succ k ih => simpa [evalFuel] using ih

/-- C3.  The claim says `+` on a Number and a String fails with a
RuntimeError; the source performs the JS `+`, which coerces and produces the
String "1a" for `1 + "a"`. -/
theorem c3_mixed_plus_concatenates :
    evalFuel 2 (.binary (.literal (.num (.fin 1))) plusTok
        (.literal (.str "a"))) = some (.str "1a") := by
  show some (jsAdd (Value.num (JNum.fin 1)) (Value.str "a")) = _
  simp [jsAdd, jsToString, numToString]
  decide

/-- C4.  The claim says a Number-only operator applied to a non-Number fails
with a RuntimeError; the source's unary MINUS computes `-Number(right)`,
which coerces Boolean true to 1 and yields Number -1. -/
theorem c4_minus_on_boolean_coerces :
    evalFuel 2 (.unary minusTok (.literal (.bool true))) =
      some (.num (.fin (-1))) := by
  show some (Value.num (jneg (toNumber (Value.bool true)))) = _
  simp [toNumber, jneg]

/-- C5.  The claim says a file-mode run of an input with a syntax error
(such as `(1 +`) produces no evaluated output and exits with code 65.  In
the source, `run` calls `interpret(expr)` before checking `hadError`, and on
a parse failure `expr` is null; `interpret` then throws a TypeError which
escapes `runFile` (skipping its `exit(65)`), so `main()`'s catch handler
exits with -1, i.e. process status 255.  No output is produced, but the
exit code is 255, not 65. -/
theorem c5_parse_error_exits_255 :
    runFileModel "(1 +" 32 32 = some (255, []) ∧ (255 : Nat) ≠ 65 := by
  decide

/-- C6.  Unary `!` produces the Boolean negation of the operand's truthiness,
and on the RuntimeValue domain (Number/String/Boolean/Nil) exactly Nil and
Boolean false are falsy. -/
theorem c6_bang_negates_truthiness (tok : Token) (e : Expr) (n : Nat)
    (v : Value) (htok : tok.type = .tt .BANG) (he : evalFuel n e = some v) :
    evalFuel (n + 1) (.unary tok e) = some (.bool (!isTruthy v)) ∧
      (v ≠ .undefined → (isTruthy v = false ↔ v = .nil ∨ v = .bool false)) := by
  constructor
  · simp [evalFuel, he, htok]
  · intro hv
    cases v with
    | bool b => cases b <;> simp [isTruthy]
    | _ => simp_all [isTruthy]

/-- C6 witness: `!nil` evaluates to Boolean true. -/
theorem c6_bang_negates_truthiness_witness :
    evalFuel 2 (.unary bangTok (.literal .nil)) = some (.bool true) := by
  have h := (c6_bang_negates_truthiness bangTok (.literal .nil) 1 .nil rfl
    rfl).1
  simpa [isTruthy] using h

/-- C7.  `==` and `!=` always produce a Boolean given two operand values and
never fail; `==` is strict equality: false across distinct tags, payload
equality within a tag, with Numbers compared by floating-point equality
(so NaN is unequal to itself); `!=` is its negation. -/
theorem c7_strict_equality :
    (∀ (tok : Token) (l r : Expr) (n : Nat) (lv rv : Value),
        tok.type = .tt .EQUAL_EQUAL → evalFuel n l = some lv →
        evalFuel n r = some rv →
        evalFuel (n + 1) (.binary l tok r) = some (.bool (jsStrictEq lv rv)))
    ∧ (∀ (tok : Token) (l r : Expr) (n : Nat) (lv rv : Value),
        tok.type = .tt .BANG_EQUAL → evalFuel n l = some lv →
        evalFuel n r = some rv →
        evalFuel (n + 1) (.binary l tok r) =
          some (.bool (!jsStrictEq lv rv)))
    ∧ (∀ lv rv : Value, lv.tag ≠ rv.tag → jsStrictEq lv rv = false)
    ∧ (∀ a b : ℚ, jsStrictEq (.num (.fin a)) (.num (.fin b)) = decide (a = b))
    ∧ jsStrictEq (.num .nan) (.num .nan) = false := by
  refine ⟨?_, ?_, ?_, ?_, rfl⟩
  · intro tok l r n lv rv htok hl hr
    simp [evalFuel, hl, hr, binaryDispatch, htok]
  · intro tok l r n lv rv htok hl hr
    simp [evalFuel, hl, hr, binaryDispatch, htok]
  · intro lv rv hne
    cases lv <;> cases rv <;> simp_all [jsStrictEq, Value.tag]
  · intro a b
    rfl

/-- C8.  The claim says an identifier-shaped lexeme outside the sixteen
keywords is emitted as IDENTIFIER; but the keyword table is a plain object
literal, so the JS lookup `KEYWORDS[text]` also reaches members inherited
from `Object.prototype`.  Scanning `constructor` therefore emits a token
whose kind is the inherited (truthy) `constructor` function — neither a
keyword kind nor IDENTIFIER. -/
theorem c8_keyword_table_prototype_leak :
    scanTokens "constructor" =
      [⟨.protoObj "constructor", "constructor", .nil, 1⟩,
        ⟨.tt .EOF, "", .nil, 1⟩] ∧
      (∀ t ∈ scanTokens "constructor", t.type ≠ .tt .IDENTIFIER) := by
  decide

theorem tokensInv_fields (st : ScanSt) (s c : Nat) (er : List (Nat × String))
    (h : TokensInv st) :
    TokensInv { st with start := s, current := c, errors := er } := h

theorem tokensInv_line (st : ScanSt) (s c l : Nat)
    (er : List (Nat × String)) (h : TokensInv st) (hl : st.line ≤ l) :
    TokensInv { st with start := s, current := c, line := l, errors := er } := by
  obtain ⟨h1, h2, h3⟩ := h
  exact ⟨h1, h2, fun t ht => le_trans (h3 t ht) hl⟩

theorem getLast_line_le (l : List Token) (m : Nat)
    (h : ∀ t ∈ l, t.line ≤ m) : ∀ x ∈ l.getLast?, x.line ≤ m := by
  intro x hx
  obtain ⟨hne, hxe⟩ := List.mem_getLast?_eq_getLast hx
  subst hxe
  exact h _ (List.getLast_mem hne)

theorem addToken_inv (src : List Char) (st : ScanSt) (ty : TKind) (lit : Value)
    (h : TokensInv st) (hty : ty ≠ .tt .EOF) :
    TokensInv (addToken src st ty lit) := by
  obtain ⟨h1, h2, h3⟩ := h
  unfold addToken
  refine ⟨?_, ?_, ?_⟩ <;> dsimp only
  · intro t ht
    rcases List.mem_append.1 ht with hm | hm
    · exact h1 t hm
    · simp only [List.mem_singleton] at hm
      subst hm
      exact hty
  · rw [List.chain'_append]
    refine ⟨h2, List.chain'_singleton _, ?_⟩
    intro x hx y hy
    simp only [List.head?_cons, Option.mem_def, Option.some.injEq] at hy
    subst hy
    exact getLast_line_le st.tokens st.line h3 x hx
  · intro t ht
    rcases List.mem_append.1 ht with hm | hm
    · exact h3 t hm
    · simp only [List.mem_singleton] at hm
      subst hm
      exact le_refl _

theorem stringLoop_line_ge (src : List Char) :
    ∀ (fuel c l : Nat), l ≤ (stringLoop src fuel c l).2 := by
  intro fuel
  induction fuel with
  | zero => intro c l; exact le_refl _
  | succ k ih =>
    intro c l
    by_cases h : charAt src c ≠ '"' ∧ c < src.length
    · calc l ≤ (if charAt src c = '\n' then l + 1 else l) := by split <;> omega
        _ ≤ _ := by
          rw [stringLoop, if_pos h]
          exact ih (c + 1) _
    · rw [stringLoop, if_neg h]

theorem keywordsGet_ne_EOF (text : String) (k : TKind)
    (h : keywordsGet text = some k) : k ≠ .tt .EOF := by
  unfold keywordsGet at h
  cases hf : KEYWORDS.find? (fun p => p.1 == text) with
  | some p =>
    rw [hf] at h
    injection h with h2
    subst h2
    have hmem : p ∈ KEYWORDS := List.mem_of_find?_eq_some hf
    have hall : ∀ q ∈ KEYWORDS, q.2 ≠ TokenType.EOF := by decide
    intro hc
    injection hc with hc2
    exact hall p hmem hc2
  | none =>
    rw [hf] at h
    by_cases hm : objectProtoMembers.contains text
    · rw [if_pos hm] at h
      injection h with h2
      subst h2
      simp
    · rw [if_neg hm] at h
      exact Option.noConfusion h

theorem scanString_inv (src : List Char) (st : ScanSt) (h : TokensInv st) :
    TokensInv (scanString src st) := by
  have hl := stringLoop_line_ge src (src.length + 1) st.current st.line
  simp only [scanString]
  split_ifs
  · exact tokensInv_line st _ _ _ _ h hl
  · exact addToken_inv _ _ _ _ (tokensInv_line st _ _ _ _ h hl) (by decide)

theorem scanNumber_inv (src : List Char) (st : ScanSt) (h : TokensInv st) :
    TokensInv (scanNumber src st) :=
  addToken_inv _ _ _ _ (tokensInv_fields st _ _ _ h) (by decide)

theorem scanIdentifier_inv (src : List Char) (st : ScanSt) (h : TokensInv st) :
    TokensInv (scanIdentifier src st) := by
  unfold scanIdentifier
  refine addToken_inv _ _ _ _ (tokensInv_fields st _ _ _ h) ?_
  split
  · exact keywordsGet_ne_EOF _ _ (by assumption)
  · decide

theorem scanTokenRest_inv (src : List Char) (c : Char) (st : ScanSt)
    (h : TokensInv st) : TokensInv (scanTokenRest src c st) := by
  unfold scanTokenRest
  repeat' split
  all_goals
    first
      | exact h
      | exact tokensInv_fields _ _ _ _ h
      | exact tokensInv_line _ _ _ _ _ h (Nat.le_succ _)
      | exact scanString_inv _ _ h
      | exact scanNumber_inv _ _ h
      | exact scanIdentifier_inv _ _ h

theorem scanTokenOps_inv (src : List Char) (c : Char) (st : ScanSt)
    (h : TokensInv st) : TokensInv (scanTokenOps src c st) := by
  unfold scanTokenOps
  repeat' split
  all_goals
    first
      | exact addToken_inv _ _ _ _ h (by decide)
      | exact addToken_inv _ _ _ _ (tokensInv_fields _ _ _ _ h) (by decide)
      | exact tokensInv_fields _ _ _ _ h
      | exact scanTokenRest_inv _ _ _ h

theorem scanTokenDispatch_inv (src : List Char) (c : Char) (st : ScanSt)
    (h : TokensInv st) : TokensInv (scanTokenDispatch src c st) := by
  unfold scanTokenDispatch
  repeat' split
  all_goals
    first
      | exact addToken_inv _ _ _ _ h (by decide)
      | exact scanTokenOps_inv _ _ _ h

theorem scanToken_inv (src : List Char) (st : ScanSt) (h : TokensInv st) :
    TokensInv (scanToken src st) :=
  scanTokenDispatch_inv src _ _ (tokensInv_fields st _ _ _ h)

theorem scanLoop_inv (src : List Char) :
    ∀ (fuel : Nat) (st : ScanSt), TokensInv st →
      TokensInv (scanLoop src fuel st) := by
  intro fuel
  induction fuel with
  | zero => intro st h; exact h
  | succ k ih =>
    intro st h
    rw [scanLoop]
    split
    · exact ih _ (scanToken_inv src _ (tokensInv_fields st _ _ _ h))
    · exact h

theorem commentLoop_ge (src : List Char) :
    ∀ fuel c, c ≤ commentLoop src fuel c := by
  intro fuel
  induction fuel with
  | zero => intro c; exact le_refl _
  | succ k ih =>
    intro c
    rw [commentLoop]
    split
    · exact le_trans (Nat.le_succ c) (ih (c + 1))
    · exact le_refl _

theorem digitsLoop_ge (src : List Char) :
    ∀ fuel c, c ≤ digitsLoop src fuel c := by
  intro fuel
  induction fuel with
  | zero => intro c; exact le_refl _
  | succ k ih =>
    intro c
    rw [digitsLoop]
    split
    · exact le_trans (Nat.le_succ c) (ih (c + 1))
    · exact le_refl _

theorem alnumLoop_ge (src : List Char) :
    ∀ fuel c, c ≤ alnumLoop src fuel c := by
  intro fuel
  induction fuel with
  | zero => intro c; exact le_refl _
  | succ k ih =>
    intro c
    rw [alnumLoop]
    split
    · exact le_trans (Nat.le_succ c) (ih (c + 1))
    · exact le_refl _

theorem stringLoop_ge (src : List Char) :
    ∀ fuel c l, c ≤ (stringLoop src fuel c l).1 := by
  intro fuel
  induction fuel with
  | zero => intro c l; exact le_refl _
  | succ k ih =>
    intro c l
    rw [stringLoop]
    split
    · exact le_trans (Nat.le_succ c) (ih (c + 1) _)
    · exact le_refl _

theorem scanString_current_ge (src : List Char) (st : ScanSt) :
    st.current ≤ (scanString src st).current := by
  have hge := stringLoop_ge src (src.length + 1) st.current st.line
  simp only [scanString]
  split_ifs
  · exact hge
  · simp only [addToken]
    omega

theorem scanNumber_current_ge (src : List Char) (st : ScanSt) :
    st.current ≤ (scanNumber src st).current := by
  have h1 := digitsLoop_ge src (src.length + 1) st.current
  have h2 := digitsLoop_ge src (src.length + 1)
    (digitsLoop src (src.length + 1) st.current + 1)
  simp only [scanNumber, addToken]
  split_ifs <;> omega

theorem scanIdentifier_current_ge (src : List Char) (st : ScanSt) :
    st.current ≤ (scanIdentifier src st).current := by
  have h1 := alnumLoop_ge src (src.length + 1) st.current
  simp only [scanIdentifier, addToken]
  exact h1

theorem scanTokenRest_current_ge (src : List Char) (c : Char) (st : ScanSt) :
    st.current ≤ (scanTokenRest src c st).current := by
  unfold scanTokenRest
  repeat' split
  all_goals
    first
      | exact le_refl _
      | exact scanString_current_ge src st
      | exact scanNumber_current_ge src st
      | exact scanIdentifier_current_ge src st

theorem scanTokenOps_current_ge (src : List Char) (c : Char) (st : ScanSt) :
    st.current ≤ (scanTokenOps src c st).current := by
  have hc := commentLoop_ge src (src.length + 1) (st.current + 1)
  unfold scanTokenOps
  repeat' split
  all_goals
    first
      | simp only [addToken]; omega
      | exact scanTokenRest_current_ge src c st

theorem scanTokenDispatch_current_ge (src : List Char) (c : Char)
    (st : ScanSt) : st.current ≤ (scanTokenDispatch src c st).current := by
  unfold scanTokenDispatch
  repeat' split
  all_goals
    first
      | simp only [addToken]; omega
      | exact scanTokenOps_current_ge src c st

/-- Each scanToken call strictly advances the cursor (the unconditional
initial `advance()`), so the scan loop's `src.length + 1` fuel suffices. -/
theorem scanToken_current_gt (src : List Char) (st : ScanSt) :
    st.current < (scanToken src st).current := by
  have h := scanTokenDispatch_current_ge src (charAt src st.current)
    { st with current := st.current + 1 }
  dsimp only at h
  simp only [scanToken]
  omega

/-- Fuel adequacy: with more fuel than remaining characters, the scan loop
runs to the end of the input, exactly as the source's while loop does. -/
theorem scanLoop_reaches_end (src : List Char) :
    ∀ (fuel : Nat) (st : ScanSt), src.length - st.current < fuel →
      src.length ≤ (scanLoop src fuel st).current := by
  intro fuel
  induction fuel with
  | zero => intro st h; omega
  | succ k ih =>
    intro st h
    rw [scanLoop]
    split
    · refine ih _ ?_
      have := scanToken_current_gt src { st with start := st.current }
      simp only at this
      omega
    · omega

/-- C9.  For every source text the scanner's token sequence contains exactly
one EOF token, positioned last, and token lines are monotonically
non-decreasing. -/
theorem c9_scan_eof_and_lines (source : String) :
    (scanTokens source).countP (fun t => decide (t.type = .tt .EOF)) = 1 ∧
      ((scanTokens source).getLast?).map Token.type = some (.tt .EOF) ∧
      List.Chain' (fun a b => a.line ≤ b.line) (scanTokens source) := by
  have hinv : TokensInv (scanAll source) :=
    scanLoop_inv _ _ _ ⟨by simp, List.chain'_nil, by simp⟩
  obtain ⟨h1, h2, h3⟩ := hinv
  unfold scanTokens
  refine ⟨?_, ?_, ?_⟩
  · rw [List.countP_append]
    have hz : (scanAll source).tokens.countP
        (fun t => decide (t.type = .tt .EOF)) = 0 := by
      rw [List.countP_eq_zero]
      intro t ht
      simpa using h1 t ht
    rw [hz]
    rfl
  · rw [List.getLast?_concat]
    rfl
  · rw [List.chain'_append]
    refine ⟨h2, List.chain'_singleton _, ?_⟩
    intro x hx y hy
    simp only [List.head?_cons, Option.mem_def, Option.some.injEq] at hy
    subst hy
    exact getLast_line_le _ _ h3 x hx

theorem matchT_sound (toks : List Token) (cur : Nat) (tys : List TokenType)
    (op : Token) (c : Nat) (hm : matchT toks cur tys = some (op, c)) :
    (∃ ty ∈ tys, op.type = .tt ty) ∧ op = peekT toks cur ∧ c = cur + 1 := by
  unfold matchT at hm
  split_ifs at hm with hany
  injection hm with hm1
  cases hm1
  obtain ⟨ty, hmem, hck⟩ := List.any_eq_true.1 hany
  refine ⟨⟨ty, hmem, ?_⟩, rfl, rfl⟩
  unfold checkT at hck
  split_ifs at hck
  all_goals exact of_decide_eq_true hck

theorem peekT_literal_ne_undef (toks : List Token) (cur : Nat)
    (h : ∀ t ∈ toks, t.literal ≠ Value.undefined) :
    (peekT toks cur).literal ≠ Value.undefined := by
  unfold peekT
  cases hg : toks.get? cur with
  | some t => simpa using h t (List.get?_mem hg)
  | none => simp

theorem binOps_any_of (op : Token) (ty : TokenType) (hmem : ty ∈ binOps)
    (hty : op.type = .tt ty) :
    binOps.any (fun t2 => decide (op.type = .tt t2)) = true :=
  List.any_eq_true.2 ⟨ty, hmem, decide_eq_true hty⟩

theorem wf_binary_of (l r : Expr) (op : Token) (hl : wfExpr l = true)
    (hr : wfExpr r = true)
    (hop : binOps.any (fun ty => decide (op.type = .tt ty)) = true) :
    wfExpr (.binary l op r) = true := by
  simp [wfExpr, hl, hr, hop]

/-- Every successful parser rule yields a well-formed expression (assuming
no token carries an undefined literal), proved for all eleven mutually
recursive rule functions simultaneously by induction on fuel. -/
theorem parser_wf (toks : List Token)
    (hlit : ∀ t ∈ toks, t.literal ≠ Value.undefined) : ∀ n : Nat,
    (∀ cur e c, pExpression n toks cur = .ok (e, c) → wfExpr e = true) ∧
    (∀ cur e c, pEquality n toks cur = .ok (e, c) → wfExpr e = true) ∧
    (∀ acc cur e c, wfExpr acc = true →
      pEqualityLoop n toks acc cur = .ok (e, c) → wfExpr e = true) ∧
    (∀ cur e c, pComparison n toks cur = .ok (e, c) → wfExpr e = true) ∧
    (∀ acc cur e c, wfExpr acc = true →
      pComparisonLoop n toks acc cur = .ok (e, c) → wfExpr e = true) ∧
    (∀ cur e c, pTerm n toks cur = .ok (e, c) → wfExpr e = true) ∧
    (∀ acc cur e c, wfExpr acc = true →
      pTermLoop n toks acc cur = .ok (e, c) → wfExpr e = true) ∧
    (∀ cur e c, pFactor n toks cur = .ok (e, c) → wfExpr e = true) ∧
    (∀ acc cur e c, wfExpr acc = true →
      pFactorLoop n toks acc cur = .ok (e, c) → wfExpr e = true) ∧
    (∀ cur e c, pUnary n toks cur = .ok (e, c) → wfExpr e = true) ∧
    (∀ cur e c, pPrimary n toks cur = .ok (e, c) → wfExpr e = true) := by
  intro n
  induction n with
  | zero =>
    exact ⟨fun cur e c h => absurd h (by simp [pExpression]),
      fun cur e c h => absurd h (by simp [pEquality]),
      fun acc cur e c _ h => absurd h (by simp [pEqualityLoop]),
      fun cur e c h => absurd h (by simp [pComparison]),
      fun acc cur e c _ h => absurd h (by simp [pComparisonLoop]),
      fun cur e c h => absurd h (by simp [pTerm]),
      fun acc cur e c _ h => absurd h (by simp [pTermLoop]),
      fun cur e c h => absurd h (by simp [pFactor]),
      fun acc cur e c _ h => absurd h (by simp [pFactorLoop]),
      fun cur e c h => absurd h (by simp [pUnary]),
      fun cur e c h => absurd h (by simp [pPrimary])⟩
  | succ n ih =>
    obtain ⟨ihE, ihEq, ihEqL, ihC, ihCL, ihT, ihTL, ihF, ihFL, ihU, ihP⟩ := ih
    refine ⟨?_, ?_, ?_, ?_, ?_, ?_, ?_, ?_, ?_, ?_, ?_⟩
    · intro cur e c h
      simp only [pExpression] at h
      exact ihEq cur e c h
    · intro cur e c h
      simp only [pEquality] at h
      cases hc : pComparison n toks cur with
      | error err => simp only [hc] at h; exact Except.noConfusion h
      | ok pr =>
        obtain ⟨e1, c1⟩ := pr
        simp only [hc] at h
        exact ihEqL e1 c1 e c (ihC cur e1 c1 hc) h
    · intro acc cur e c hacc h
      simp only [pEqualityLoop] at h
      cases hm : matchT toks cur [.BANG_EQUAL, .EQUAL_EQUAL] with
      | none =>
        simp only [hm] at h
        injection h with h1
        cases h1
        exact hacc
      | some pr =>
        obtain ⟨op, c1⟩ := pr
        simp only [hm] at h
        cases hc : pComparison n toks c1 with
        | error err => simp only [hc] at h; exact Except.noConfusion h
        | ok pr2 =>
          obtain ⟨r, c2⟩ := pr2
          simp only [hc] at h
          refine ihEqL _ _ _ _ ?_ h
          obtain ⟨⟨ty, hmem, hty⟩, _, _⟩ := matchT_sound toks cur _ op c1 hm
          refine wf_binary_of acc r op hacc (ihC c1 r c2 hc)
            (binOps_any_of op ty ?_ hty)
          fin_cases hmem <;> decide
    · intro cur e c h
      simp only [pComparison] at h
      cases hc : pTerm n toks cur with
      | error err => simp only [hc] at h; exact Except.noConfusion h
      | ok pr =>
        obtain ⟨e1, c1⟩ := pr
        simp only [hc] at h
        exact ihCL e1 c1 e c (ihT cur e1 c1 hc) h
    · intro acc cur e c hacc h
      simp only [pComparisonLoop] at h
      cases hm : matchT toks cur
          [.GREATER, .GREATER_EQUAL, .LESS, .LESS_EQUAL] with
      | none =>
        simp only [hm] at h
        injection h with h1
        cases h1
        exact hacc
      | some pr =>
        obtain ⟨op, c1⟩ := pr
        simp only [hm] at h
        cases hc : pTerm n toks c1 with
        | error err => simp only [hc] at h; exact Except.noConfusion h
        | ok pr2 =>
          obtain ⟨r, c2⟩ := pr2
          simp only [hc] at h
          refine ihCL _ _ _ _ ?_ h
          obtain ⟨⟨ty, hmem, hty⟩, _, _⟩ := matchT_sound toks cur _ op c1 hm
          refine wf_binary_of acc r op hacc (ihT c1 r c2 hc)
            (binOps_any_of op ty ?_ hty)
          fin_cases hmem <;> decide
    · intro cur e c h
      simp only [pTerm] at h
      cases hc : pFactor n toks cur with
      | error err => simp only [hc] at h; exact Except.noConfusion h
      | ok pr =>
        obtain ⟨e1, c1⟩ := pr
        simp only [hc] at h
        exact ihTL e1 c1 e c (ihF cur e1 c1 hc) h
    · intro acc cur e c hacc h
      simp only [pTermLoop] at h
      cases hm : matchT toks cur [.MINUS, .PLUS] with
      | none =>
        simp only [hm] at h
        injection h with h1
        cases h1
        exact hacc
      | some pr =>
        obtain ⟨op, c1⟩ := pr
        simp only [hm] at h
        cases hc : pFactor n toks c1 with
        | error err => simp only [hc] at h; exact Except.noConfusion h
        | ok pr2 =>
          obtain ⟨r, c2⟩ := pr2
          simp only [hc] at h
          refine ihTL _ _ _ _ ?_ h
          obtain ⟨⟨ty, hmem, hty⟩, _, _⟩ := matchT_sound toks cur _ op c1 hm
          refine wf_binary_of acc r op hacc (ihF c1 r c2 hc)
            (binOps_any_of op ty ?_ hty)
          fin_cases hmem <;> decide
    · intro cur e c h
      simp only [pFactor] at h
      cases hc : pUnary n toks cur with
      | error err => simp only [hc] at h; exact Except.noConfusion h
      | ok pr =>
        obtain ⟨e1, c1⟩ := pr
        simp only [hc] at h
        exact ihFL e1 c1 e c (ihU cur e1 c1 hc) h
    · intro acc cur e c hacc h
      simp only [pFactorLoop] at h
      cases hm : matchT toks cur [.SLASH, .STAR] with
      | none =>
        simp only [hm] at h
        injection h with h1
        cases h1
        exact hacc
      | some pr =>
        obtain ⟨op, c1⟩ := pr
        simp only [hm] at h
        cases hc : pUnary n toks c1 with
        | error err => simp only [hc] at h; exact Except.noConfusion h
        | ok pr2 =>
          obtain ⟨r, c2⟩ := pr2
          simp only [hc] at h
          refine ihFL _ _ _ _ ?_ h
          obtain ⟨⟨ty, hmem, hty⟩, _, _⟩ := matchT_sound toks cur _ op c1 hm
          refine wf_binary_of acc r op hacc (ihU c1 r c2 hc)
            (binOps_any_of op ty ?_ hty)
          fin_cases hmem <;> decide
    · intro cur e c h
      simp only [pUnary] at h
      cases hm : matchT toks cur [.BANG, .MINUS] with
      | none =>
        simp only [hm] at h
        exact ihP cur e c h
      | some pr =>
        obtain ⟨op, c1⟩ := pr
        simp only [hm] at h
        cases hu : pUnary n toks c1 with
        | error err => simp only [hu] at h; exact Except.noConfusion h
        | ok pr2 =>
          obtain ⟨r, c2⟩ := pr2
          simp only [hu] at h
          injection h with h1
          cases h1
          obtain ⟨⟨ty, hmem, hty⟩, _, _⟩ := matchT_sound toks cur _ op c1 hm
          have hr := ihU c1 r _ hu
          simp only [wfExpr, Bool.and_eq_true, Bool.or_eq_true,
            decide_eq_true_eq]
          refine ⟨?_, hr⟩
          fin_cases hmem
          · exact Or.inl hty
          · exact Or.inr hty
    · intro cur e c h
      simp only [pPrimary] at h
      cases hF : matchT toks cur [.FALSE] with
      | some pr =>
        obtain ⟨t1, c1⟩ := pr
        simp only [hF] at h
        injection h with h1
        cases h1
        decide
      | none =>
      simp only [hF] at h
      cases hT : matchT toks cur [.TRUE] with
      | some pr =>
        obtain ⟨t1, c1⟩ := pr
        simp only [hT] at h
        injection h with h1
        cases h1
        decide
      | none =>
      simp only [hT] at h
      cases hN : matchT toks cur [.NIL] with
      | some pr =>
        obtain ⟨t1, c1⟩ := pr
        simp only [hN] at h
        injection h with h1
        cases h1
        decide
      | none =>
      simp only [hN] at h
      cases hNS : matchT toks cur [.NUMBER, .STRING] with
      | some pr =>
        obtain ⟨tok, c1⟩ := pr
        simp only [hNS] at h
        injection h with h1
        cases h1
        obtain ⟨_, hop, _⟩ := matchT_sound toks cur _ tok _ hNS
        simp only [wfExpr, decide_eq_true_eq]
        rw [hop]
        exact peekT_literal_ne_undef toks cur hlit
      | none =>
      simp only [hNS] at h
      cases hLP : matchT toks cur [.LEFT_PAREN] with
      | none => simp only [hLP] at h; exact Except.noConfusion h
      | some pr =>
        obtain ⟨t1, c1⟩ := pr
        simp only [hLP] at h
        cases hE : pExpression n toks c1 with
        | error err => simp only [hE] at h; exact Except.noConfusion h
        | ok pr2 =>
          obtain ⟨e2, c2⟩ := pr2
          simp only [hE] at h
          split_ifs at h
          injection h with h1
          cases h1
          exact ihE c1 e2 c2 hE

theorem jsAdd_ne_undef (l r : Value) : jsAdd l r ≠ .undefined := by
  unfold jsAdd
  cases l <;> cases r <;> simp

/-- For a well-formed tree, evaluation never produces `undefined`: the
operator dispatch of visitUnaryExpr / visitBinaryExpr never reaches its
unhandled fall-through. -/
theorem eval_wf_not_undef : ∀ (n : Nat) (e : Expr) (v : Value),
    wfExpr e = true → evalFuel n e = some v → v ≠ .undefined := by
  intro n
  induction n with
  | zero => intro e v _ h; exact Option.noConfusion h
  | succ n ih =>
    intro e v hwf h
    cases e with
    | literal v2 =>
      simp only [evalFuel] at h
      injection h with h1
      subst h1
      exact of_decide_eq_true hwf
    | grouping e2 =>
      simp only [evalFuel] at h
      exact ih (.grouping e2) v hwf h
    | unary op r =>
      have hop : op.type = .tt .BANG ∨ op.type = .tt .MINUS := by
        have h2 := hwf
        simp only [wfExpr, Bool.and_eq_true, Bool.or_eq_true,
          decide_eq_true_eq] at h2
        exact h2.1
      simp only [evalFuel] at h
      cases hr : evalFuel n r with
      | none => simp only [hr] at h; exact Option.noConfusion h
      | some rv =>
        simp only [hr] at h
        split_ifs at h with h1 h2
        · injection h with h1e
          subst h1e
          simp
        · injection h with h1e
          subst h1e
          simp
        · rcases hop with hb | hm2
          · exact absurd hb h2
          · exact absurd hm2 h1
    | binary l op r =>
      have hop : binOps.any (fun ty => decide (op.type = .tt ty)) = true := by
        have h2 := hwf
        simp only [wfExpr, Bool.and_eq_true] at h2
        exact h2.1.1
      simp only [evalFuel] at h
      cases hl : evalFuel n l with
      | none => simp only [hl] at h; exact Option.noConfusion h
      | some lv =>
        simp only [hl] at h
        cases hr : evalFuel n r with
        | none => simp only [hr] at h; exact Option.noConfusion h
        | some rv =>
          simp only [hr] at h
          injection h with h1
          subst h1
          obtain ⟨ty, hmem, hty⟩ := List.any_eq_true.1 hop
          have hty2 := of_decide_eq_true hty
          unfold binaryDispatch
          rw [hty2]
          fin_cases hmem <;> simp [jsAdd_ne_undef]

/-- C10.  Every Expr tree produced by a successful parse (of a token list
whose literals are runtime values, as the scanner guarantees) has Unary
operators only of kind BANG or MINUS and Binary operators only among the
ten kinds handled by visitBinaryExpr's switch; consequently evaluating such
a tree can never yield the `undefined` of the dispatch fall-through. -/
theorem c10_parser_ops_handled (toks : List Token) (fuel : Nat) (e : Expr)
    (c : Nat) (hlit : ∀ t ∈ toks, t.literal ≠ Value.undefined)
    (hp : pExpression fuel toks 0 = .ok (e, c)) :
    wfExpr e = true ∧
      ∀ (n : Nat) (v : Value), evalFuel n e = some v → v ≠ .undefined := by
  have hwf := (parser_wf toks hlit fuel).1 0 e c hp
  exact ⟨hwf, fun n v h => eval_wf_not_undef n e v hwf h⟩

/-- C10 witness: parsing the scanner output of `1` succeeds and the parsed
tree is well-formed. -/
theorem c10_parser_ops_handled_witness :
    wfExpr (Expr.literal (Value.num (JNum.fin 1))) = true :=
  (c10_parser_ops_handled
    [⟨.tt .NUMBER, "1", .num (.fin 1), 1⟩, ⟨.tt .EOF, "", .nil, 1⟩] 9
    (.literal (.num (.fin 1))) 1 (by decide) (by decide)).1

/-- C7 witness: `1 == "1"` evaluates to Boolean false (no cross-tag
coercion). -/
theorem c7_strict_equality_witness :
    evalFuel 2 (.binary (.literal (.num (.fin 1))) eqeqTok
        (.literal (.str "1"))) = some (.bool false) := by
  have h := c7_strict_equality.1 eqeqTok (.literal (.num (.fin 1)))
    (.literal (.str "1")) 1 (.num (.fin 1)) (.str "1") rfl rfl rfl
  simpa [jsStrictEq, jnumEq] using h

end Tlox
